import Mathlib

/-!
Verification of the prediction reducer and bounding-box geometry of
therapy_aid_tool/model_inference.py.

Python floats are modelled as rationals; the sentinel value float("-inf")
used by the reducer is modelled with the bottom element of `WithBot ℚ`.
Python runtime failures (KeyError, ValueError, IndexError, TypeError,
ZeroDivisionError) are modelled with an explicit error type in `Except`.
-/

/-- A Python float value as it appears in the reducer: either an ordinary
(finite) float, modelled as a rational, or the sentinel float("-inf"),
modelled as the bottom element of `WithBot ℚ`. -/
abbrev Fl : Type := WithBot ℚ

/-- The Python runtime errors that the translated code can raise.
KeyError is raised by the dict lookup when a class id is not among the
keys 0..n_classes-1 (this is the realization of the spec error
InvalidClassId); ValueError by starred unpacking of an empty row;
IndexError by the sort key x[-1] applied to an empty list;
TypeError by comparisons or arithmetic on None or tuples;
ZeroDivisionError by dividing by zero. -/
inductive PyErr : Type where
  | keyError : PyErr
  | valueError : PyErr
  | indexError : PyErr
  | typeError : PyErr
  | zeroDivisionError : PyErr
deriving DecidableEq, Repr

/-! ## The reducer, preds_from_torch_results

Each raw prediction row is a list of Python floats; the code treats its
last entry as the class and the rest as the x, y, w, h, conf payload. -/

/-- The sentinel entry [float("-inf")] * 5 placed at the start of each
class bucket. -/
def sentinel : List Fl := List.replicate 5 (⊥ : Fl)

/-- Python dict key lookup for preds_dict, whose keys are the integers
0..n-1: a float value c matches key k iff c == k. Returns the matched
key, or none when the lookup would raise KeyError. -/
def classIndex (c : Fl) (n : ℕ) : Option ℕ :=
  (List.range n).find? (fun k => decide (c = ((k : ℚ) : Fl)))

/-- The first loop of preds_from_torch_results:
for *xywhc, c in preds: preds_dict[c].append(xywhc).
An empty row makes the starred unpacking raise ValueError; a class value
that is not a dict key raises KeyError. -/
def fillBuckets (n : ℕ) : List (List Fl) → List (List (List Fl)) →
    Except PyErr (List (List (List Fl)))
  | [], buckets => .ok buckets
  | row :: rest, buckets =>
    if row.isEmpty then .error .valueError
    else
      match classIndex (row.getLastD ⊥) n with
      | none => .error .keyError
      | some k => fillBuckets n rest (buckets.set k (buckets.getD k [] ++ [row.dropLast]))

/-- The sort key lambda x: x[-1] (for the nonempty rows on which it is
actually applied). -/
def rowKey (x : List Fl) : Fl := x.getLastD ⊥

/-- Ordering of rows by the sort key, as used by sorted(..., key=lambda x: x[-1]). -/
def rowLE (a b : List Fl) : Prop := rowKey a ≤ rowKey b

instance : DecidableRel rowLE :=
  fun a b => inferInstanceAs (Decidable (rowKey a ≤ rowKey b))

instance : IsTotal (List Fl) rowLE := ⟨fun a b => le_total (rowKey a) (rowKey b)⟩

instance : IsTrans (List Fl) rowLE := ⟨fun _ _ _ h1 h2 => le_trans h1 h2⟩

/-- One step of the second loop of preds_from_torch_results:
preds_dict[c] = sorted(preds_dict[c], key=lambda x: x[-1])[-1], followed by
the -inf membership check that replaces a leftover sentinel with None.
CPython's sorted evaluates the key on every element (in list order) before
sorting, so any empty row in the bucket raises IndexError; indexing [-1]
into an empty sorted list would also raise IndexError. Python's sort is
stable; it is modelled by insertion sort, which is stable for rowLE. -/
def selectBest (bucket : List (List Fl)) : Except PyErr (Option (List Fl)) :=
  if bucket.any List.isEmpty then .error .indexError
  else
    match (List.insertionSort rowLE bucket).getLast? with
    | none => .error .indexError
    | some best => .ok (if (⊥ : Fl) ∈ best then none else some best)

/-- The second loop of preds_from_torch_results, over the dict keys in
insertion order 0..n-1. -/
def selectAll (buckets : List (List (List Fl))) :
    List ℕ → Except PyErr (List (ℕ × Option (List Fl)))
  | [] => .ok []
  | k :: ks => do
    let best ← selectBest (buckets.getD k [])
    let rest ← selectAll buckets ks
    .ok ((k, best) :: rest)

/-- preds_from_torch_results (model_inference.py, lines 47-91): buckets the
raw rows by class (each bucket starting with the -inf sentinel), then for
each class 0..n_classes-1 takes the last element of the bucket stably
sorted by confidence, turning a leftover sentinel into None. -/
def preds_from_torch_results (preds : List (List Fl)) (n_classes : ℕ) :
    Except PyErr (List (ℕ × Option (List Fl))) := do
  let buckets ← fillBuckets n_classes preds (List.replicate n_classes [sentinel])
  selectAll buckets (List.range n_classes)

/-! ## Reference (spec-side) description of the reducer -/

/-- Reference selector for one class: the detection with maximum key
(confidence), where on ties the one appearing last in the original order
wins. This is the spec's description of the per-bucket reduction; it is
compared against the sort-based source computation. -/
def lastArgmax : List (List Fl) → Option (List Fl)
  | [] => none
  | a :: l =>
    match lastArgmax l with
    | none => some a
    | some m => some (if rowLE a m then m else a)

/-- The rows of class k (their payload parts, in original order): exactly
what the first loop appends to bucket k. -/
def classRows (preds : List (List Fl)) (n k : ℕ) : List (List Fl) :=
  (preds.filter (fun row => decide (classIndex (row.getLastD ⊥) n = some k))).map
    List.dropLast

/-- Reference result of the whole reduction, used to state the claims. -/
def specReduce (preds : List (List Fl)) (n : ℕ) : List (ℕ × Option (List Fl)) :=
  (List.range n).map fun k =>
    (k, match lastArgmax (classRows preds n k) with
        | none => none
        | some best => if (⊥ : Fl) ∈ best then none else some best)

/-! ## Python values and the BBox class

BBox fields hold Python objects: floats (rationals here), None, or the
one-element tuple (None,) produced by the trailing commas in
create_corners. One-element tuples suffice: they are the only tuples the
class ever constructs. -/

/-- A Python value that can appear in a BBox field. -/
inductive PyVal : Type where
  | pyNone : PyVal
  | pyRat : ℚ → PyVal
  | pyTup1 : PyVal → PyVal
deriving DecidableEq, Repr

/-- Python ==, which never raises on these values: None == None is True,
tuples compare elementwise, mixed types compare unequal. -/
def pyEq : PyVal → PyVal → Bool
  | .pyNone, .pyNone => true
  | .pyRat a, .pyRat b => decide (a = b)
  | .pyTup1 a, .pyTup1 b => pyEq a b
  | _, _ => false

/-- Python <: floats compare numerically; one-element tuples compare
their elements only when they differ under == (so ((None,) < (None,)) is
False, not an error); any other combination raises TypeError. -/
def pyLt : PyVal → PyVal → Except PyErr Bool
  | .pyRat a, .pyRat b => .ok (decide (a < b))
  | .pyTup1 a, .pyTup1 b => if pyEq a b then .ok false else pyLt a b
  | _, _ => .error .typeError

/-- Python max(a, b): keeps a unless b > a. -/
def pyMax (a b : PyVal) : Except PyErr PyVal := do
  let t ← pyLt a b
  .ok (if t then b else a)

/-- Python min(a, b): keeps a unless b < a. -/
def pyMin (a b : PyVal) : Except PyErr PyVal := do
  let t ← pyLt b a
  .ok (if t then b else a)

/-- Python subtraction: defined on numbers, TypeError otherwise. -/
def pySub : PyVal → PyVal → Except PyErr PyVal
  | .pyRat a, .pyRat b => .ok (.pyRat (a - b))
  | _, _ => .error .typeError

/-- Python multiplication restricted to numbers, as used here. -/
def pyMul : PyVal → PyVal → Except PyErr PyVal
  | .pyRat a, .pyRat b => .ok (.pyRat (a * b))
  | _, _ => .error .typeError

/-- Python true division: ZeroDivisionError on a zero divisor. -/
def pyDiv : PyVal → PyVal → Except PyErr PyVal
  | .pyRat a, .pyRat b =>
    if b = 0 then .error .zeroDivisionError else .ok (.pyRat (a / b))
  | _, _ => .error .typeError

/-- The BBox class: the stored prediction pieces and the fields set by
create_corners. -/
structure BBox : Type where
  cls : ℚ
  xywhc : Option (List ℚ)
  x : PyVal
  y : PyVal
  w : PyVal
  h : PyVal
  conf : PyVal
  x1 : PyVal
  x2 : PyVal
  y1 : PyVal
  y2 : PyVal
deriving DecidableEq, Repr

/-- The BBox produced by the truthy branch of create_corners:
x1 = x - w/2, x2 = x + w/2, y1 = y - h/2, y2 = y + h/2. -/
def presentBox (cls x y w h conf : ℚ) : BBox :=
  { cls := cls, xywhc := some [x, y, w, h, conf]
    x := .pyRat x, y := .pyRat y, w := .pyRat w, h := .pyRat h, conf := .pyRat conf
    x1 := .pyRat (x - w / 2), x2 := .pyRat (x + w / 2)
    y1 := .pyRat (y - h / 2), y2 := .pyRat (y + h / 2) }

/-- The BBox produced by the falsy branch of create_corners: x, y, w, h,
conf are None, while the trailing commas make each corner the one-element
tuple (None,). -/
def absentBox (cls : ℚ) (xy : Option (List ℚ)) : BBox :=
  { cls := cls, xywhc := xy
    x := .pyNone, y := .pyNone, w := .pyNone, h := .pyNone, conf := .pyNone
    x1 := .pyTup1 .pyNone, x2 := .pyTup1 .pyNone
    y1 := .pyTup1 .pyNone, y2 := .pyTup1 .pyNone }

/-- BBox.__init__ together with create_corners: a truthy xywhc (a nonempty
list) is unpacked into the five fields (ValueError when its length is not
5); a falsy xywhc (None or an empty list) yields the all-absent fields. -/
def BBox.init (pred : ℚ × Option (List ℚ)) : Except PyErr BBox :=
  match pred.2 with
  | none => .ok (absentBox pred.1 none)
  | some [] => .ok (absentBox pred.1 (some []))
  | some [a, b, c, d, e] => .ok (presentBox pred.1 a b c d e)
  | some _ => .error .valueError

/-- Truthiness of self.xywhc as used by the guards: a nonempty list. -/
def BBox.truthy (b : BBox) : Bool :=
  match b.xywhc with
  | some (_ :: _) => true
  | _ => false

/-- BBox.rectangular_area: (x2 - x1) * (y2 - y1), generic over any four
corners, with no validation. -/
def rectangular_area (x1 x2 y1 y2 : PyVal) : Except PyErr PyVal := do
  let dx ← pySub x2 x1
  let dy ← pySub y2 y1
  pyMul dx dy

/-- BBox.intersection: rectangular area of the corners
max(x1, other.x1), min(x2, other.x2), max(y1, other.y1), min(y2, other.y2),
computed without any overlap check. -/
def BBox.intersection (self other : BBox) : Except PyErr PyVal := do
  let ix1 ← pyMax self.x1 other.x1
  let iy1 ← pyMax self.y1 other.y1
  let ix2 ← pyMin self.x2 other.x2
  let iy2 ← pyMin self.y2 other.y2
  rectangular_area ix1 ix2 iy1 iy2

/-- BBox.is_overlapping: when both xywhc are truthy, the four strict
corner comparisons combined with short-circuit and; otherwise False. -/
def BBox.is_overlapping (self other : BBox) : Except PyErr Bool :=
  if self.truthy && other.truthy then do
    let c1 ← pyLt self.x1 other.x2
    if c1 then do
      let c2 ← pyLt self.y1 other.y2
      if c2 then do
        let c3 ← pyLt other.x1 self.x2
        if c3 then pyLt other.y1 self.y2
        else .ok false
      else .ok false
    else .ok false
  else .ok false

/-- BBox.niou: 0 when not overlapping, otherwise the intersection area
divided by the smaller of the two box areas. -/
def BBox.niou (self other : BBox) : Except PyErr PyVal := do
  let ov ← self.is_overlapping other
  if ov then do
    let ia ← self.intersection other
    let a1 ← rectangular_area self.x1 self.x2 self.y1 self.y2
    let a2 ← rectangular_area other.x1 other.x2 other.y1 other.y2
    let m ← pyMin a1 a2
    pyDiv ia m
  else .ok (.pyRat 0)

/-! ## Lemmas about the stable sort and the reference selector -/

lemma rowLE_total (a b : List Fl) : rowLE a b ∨ rowLE b a :=
  le_total (rowKey a) (rowKey b)

lemma rowLE_trans {a b c : List Fl} (h1 : rowLE a b) (h2 : rowLE b c) : rowLE a c :=
  le_trans h1 h2

/-- The last element of inserting a into a sorted list: the old last
element when a is below-or-equal to it, otherwise a. -/
lemma getLast?_orderedInsert (a : List Fl) (s : List (List Fl))
    (hs : s.Sorted rowLE) :
    (List.orderedInsert rowLE a s).getLast? =
      some ((s.getLast?).elim a (fun m => if rowLE a m then m else a)) := by
  induction s with
  | nil => simp [List.orderedInsert]
  | cons b t ih =>
    rw [List.orderedInsert]
    by_cases hab : rowLE a b
    · rw [if_pos hab]
      cases t with
      | nil => simp [hab]
      | cons c u =>
        rw [List.getLast?_cons_cons, List.getLast?_cons_cons]
        obtain ⟨m, hm⟩ : ∃ m, (c :: u).getLast? = some m :=
          ⟨(c :: u).getLast (by simp), List.getLast?_eq_getLast_of_ne_nil (by simp)⟩
        have hmem : m ∈ c :: u := by
          obtain ⟨_, h2⟩ := List.mem_getLast?_eq_getLast (by rw [hm]; rfl)
          exact h2 ▸ List.getLast_mem _
        have hbm : rowLE b m :=
          List.rel_of_sorted_cons hs m hmem
        have ham : rowLE a m := rowLE_trans hab hbm
        rw [hm]
        simp [ham]
    · rw [if_neg hab]
      have ih2 := ih hs.of_cons
      cases t with
      | nil =>
        have hba : rowLE a b → False := hab
        simp only [List.orderedInsert, List.getLast?_cons_cons] at *
        simp [List.orderedInsert, hab]
      | cons c u =>
        have hne : List.orderedInsert rowLE a (c :: u) ≠ [] := by
          have := List.orderedInsert_length rowLE (c :: u) a
          intro h
          rw [h] at this
          simp at this
        cases hoi : List.orderedInsert rowLE a (c :: u) with
        | nil => exact absurd hoi hne
        | cons d v =>
          rw [List.getLast?_cons_cons, ← hoi, ih2, List.getLast?_cons_cons]

/-- The last element of the stable ascending sort is exactly the
last-occurrence argmax of the list. -/
lemma getLast?_insertionSort (l : List (List Fl)) :
    (List.insertionSort rowLE l).getLast? = lastArgmax l := by
  induction l with
  | nil => rfl
  | cons a t ih =>
    show (List.orderedInsert rowLE a (List.insertionSort rowLE t)).getLast? = _
    rw [getLast?_orderedInsert a _ (List.sorted_insertionSort rowLE t), ih]
    cases h : lastArgmax t with
    | none => simp [lastArgmax, h]
    | some m => simp [lastArgmax, h]

/-- The reference selector picks an element of the list. -/
lemma lastArgmax_mem {l : List (List Fl)} {b : List Fl}
    (h : lastArgmax l = some b) : b ∈ l := by
  induction l generalizing b with
  | nil => simp [lastArgmax] at h
  | cons a t ih =>
    rw [lastArgmax] at h
    cases ht : lastArgmax t with
    | none => rw [ht] at h; simp at h; simp [h]
    | some m =>
      rw [ht] at h
      simp only [Option.some.injEq] at h
      by_cases ham : rowLE a m
      · rw [if_pos ham] at h
        exact List.mem_cons_of_mem a (h ▸ ih ht)
      · rw [if_neg ham] at h
        simp [h]


/-- lastArgmax of a nonempty list is some value. -/
lemma lastArgmax_cons_isSome (a : List Fl) (l : List (List Fl)) :
    ∃ b, lastArgmax (a :: l) = some b := by
  rw [lastArgmax]
  cases lastArgmax l with
  | none => exact ⟨a, rfl⟩
  | some m => exact ⟨if rowLE a m then m else a, rfl⟩

/-- lastArgmax is none only on the empty list. -/
lemma lastArgmax_eq_none {l : List (List Fl)} (h : lastArgmax l = none) :
    l = [] := by
  cases l with
  | nil => rfl
  | cons a t =>
    obtain ⟨b, hb⟩ := lastArgmax_cons_isSome a t
    rw [hb] at h
    cases h

/-- The reference selector is maximal for the key. -/
lemma lastArgmax_max {l : List (List Fl)} {b : List Fl}
    (h : lastArgmax l = some b) : ∀ d ∈ l, rowKey d ≤ rowKey b := by
  induction l generalizing b with
  | nil => simp
  | cons a t ih =>
    rw [lastArgmax] at h
    cases ht : lastArgmax t with
    | none =>
      have htnil := lastArgmax_eq_none ht
      subst htnil
      rw [ht] at h
      simp only [Option.some.injEq] at h
      intro d hd
      rcases List.mem_cons.mp hd with hda | hdt
      · exact le_of_eq (by rw [hda, h])
      · simp at hdt
    | some m =>
      rw [ht] at h
      simp only [Option.some.injEq] at h
      intro d hd
      rcases List.mem_cons.mp hd with hda | hdt
      · by_cases ham : rowLE a m
        · rw [if_pos ham] at h
          rw [hda, ← h]
          exact ham
        · rw [if_neg ham] at h
          exact le_of_eq (by rw [hda, h])
      · have hdm : rowKey d ≤ rowKey m := ih ht d hdt
        by_cases ham : rowLE a m
        · rw [if_pos ham] at h
          rw [← h]
          exact hdm
        · rw [if_neg ham] at h
          rw [← h]
          exact le_trans hdm (le_of_not_le ham)

/-- Among the elements sharing the maximal key, the reference selector
picks the last one in the original order. -/
lemma lastArgmax_last {l : List (List Fl)} {b : List Fl}
    (h : lastArgmax l = some b) :
    (l.filter (fun d => decide (rowKey d = rowKey b))).getLast? = some b := by
  induction l generalizing b with
  | nil => simp [lastArgmax] at h
  | cons a t ih =>
    rw [lastArgmax] at h
    cases ht : lastArgmax t with
    | none =>
      have htnil := lastArgmax_eq_none ht
      subst htnil
      rw [ht] at h
      simp only [Option.some.injEq] at h
      rw [← h]
      simp
    | some m =>
      rw [ht] at h
      simp only [Option.some.injEq] at h
      by_cases ham : rowLE a m
      · rw [if_pos ham] at h
        rw [← h]
        have ihm := ih ht
        rw [List.filter_cons]
        split_ifs with hdk
        · cases hf : List.filter (fun d => decide (rowKey d = rowKey m)) t with
          | nil =>
            rw [hf] at ihm
            simp at ihm
          | cons e w =>
            rw [List.getLast?_cons_cons, ← hf, ihm]
        · exact ihm
      · rw [if_neg ham] at h
        rw [← h]
        have hlt : ∀ d ∈ t, rowKey d < rowKey a := by
          intro d hd
          exact lt_of_le_of_lt (lastArgmax_max ht d hd) (lt_of_not_le ham)
        have hfe : List.filter (fun d => decide (rowKey d = rowKey a)) t = [] := by
          rw [List.filter_eq_nil_iff]
          intro d hd
          simp only [decide_eq_true_eq]
          exact ne_of_lt (hlt d hd)
        rw [List.filter_cons]
        split_ifs with hdk
        · rw [hfe]
          rfl
        · simp at hdk

/-! ## Lemmas about the bucketing loop -/

lemma classIndex_eq_some_iff {c : Fl} {n k : ℕ} :
    classIndex c n = some k ↔ k < n ∧ c = ((k : ℚ) : Fl) := by
  constructor
  · intro h
    refine ⟨List.mem_range.mp (List.mem_of_find?_eq_some h), ?_⟩
    have hp := List.find?_some h
    simpa using hp
  · rintro ⟨hk, hc⟩
    have hsome : (classIndex c n).isSome = true := by
      rw [classIndex, List.find?_isSome]
      exact ⟨k, List.mem_range.mpr hk, by simp [hc]⟩
    obtain ⟨j, hj⟩ := Option.isSome_iff_exists.mp hsome
    have hpj := List.find?_some hj
    simp only [decide_eq_true_eq] at hpj
    have hjk : j = k := by
      rw [hc] at hpj
      exact (Nat.cast_inj.mp (WithBot.coe_inj.mp hpj)).symm
    rw [hj, hjk]

lemma classIndex_eq_none_iff {c : Fl} {n : ℕ} :
    classIndex c n = none ↔ ∀ k, k < n → c ≠ ((k : ℚ) : Fl) := by
  rw [classIndex, List.find?_eq_none]
  constructor
  · intro h k hk
    have := h k (List.mem_range.mpr hk)
    simpa using this
  · intro h x hx
    simp only [decide_eq_true_eq]
    exact h x (List.mem_range.mp hx)

/-- Unfolding classRows over a cons. -/
lemma classRows_cons (row : List Fl) (rest : List (List Fl)) (n k : ℕ) :
    classRows (row :: rest) n k =
      (if classIndex (row.getLastD ⊥) n = some k then [row.dropLast] else []) ++
        classRows rest n k := by
  rw [classRows, List.filter_cons]
  by_cases hc : classIndex (row.getLastD ⊥) n = some k
  · rw [if_pos (by simp only [decide_eq_true_eq]; exact hc), if_pos hc, List.map_cons]
    rfl
  · rw [if_neg (by simp only [decide_eq_true_eq]; exact hc), if_neg hc]
    rfl

/-- The first loop succeeds when every row is nonempty with a valid class,
and fills each bucket with exactly the payloads of its class, in order. -/
lemma fillBuckets_ok (n : ℕ) (rows : List (List Fl))
    (buckets : List (List (List Fl))) (hlen : buckets.length = n)
    (hrows : ∀ row ∈ rows, row ≠ [] ∧ ∃ k, classIndex (row.getLastD ⊥) n = some k) :
    ∃ buckets2, fillBuckets n rows buckets = .ok buckets2 ∧
      buckets2.length = n ∧
      ∀ k, k < n → buckets2.getD k [] = buckets.getD k [] ++ classRows rows n k := by
  induction rows generalizing buckets with
  | nil =>
    refine ⟨buckets, rfl, hlen, ?_⟩
    intro k _
    simp [classRows]
  | cons row rest ih =>
    obtain ⟨hne, k0, hk0⟩ := hrows row (List.mem_cons_self row rest)
    have hk0n : k0 < n := (classIndex_eq_some_iff.mp hk0).1
    rw [fillBuckets, if_neg (by rw [List.isEmpty_eq_false.mpr hne]; simp), hk0]
    have hlen2 : (buckets.set k0 (buckets.getD k0 [] ++ [row.dropLast])).length = n := by
      rw [List.length_set, hlen]
    obtain ⟨b2, hb2, hl2, hspec⟩ :=
      ih (buckets.set k0 (buckets.getD k0 [] ++ [row.dropLast])) hlen2
        (fun r hr => hrows r (List.mem_cons_of_mem _ hr))
    refine ⟨b2, hb2, hl2, ?_⟩
    intro k hk
    rw [hspec k hk, classRows_cons]
    by_cases hkk : classIndex (row.getLastD ⊥) n = some k
    · have hkeq : k = k0 := by
        rw [hkk] at hk0
        exact Option.some_inj.mp hk0
      subst hkeq
      rw [if_pos hkk]
      have hget : (buckets.set k (buckets.getD k [] ++ [row.dropLast])).getD k [] =
          buckets.getD k [] ++ [row.dropLast] := by
        rw [List.getD_eq_getElem?_getD,
          List.getElem?_set_eq (by rw [hlen]; exact hk)]
        rfl
      rw [hget, List.append_assoc]
    · rw [if_neg hkk]
      have hkne : k0 ≠ k := fun he => hkk (he ▸ hk0)
      have hget : (buckets.set k0 (buckets.getD k0 [] ++ [row.dropLast])).getD k [] =
          buckets.getD k [] := by
        rw [List.getD_eq_getElem?_getD, List.getElem?_set_ne hkne,
          ← List.getD_eq_getElem?_getD]
      rw [hget, List.nil_append]

/-! ## Lemmas about the selection loop -/

lemma rowKey_sentinel : rowKey sentinel = (⊥ : Fl) := rfl

/-- Selecting from a bucket that starts with the sentinel and otherwise
holds nonempty payload rows: the result is the last-occurrence argmax,
with a leftover sentinel (or a -inf-containing payload) turned into none. -/
lemma selectBest_bucket (dets : List (List Fl)) (hne : ∀ d ∈ dets, d ≠ []) :
    selectBest (sentinel :: dets) =
      .ok (match lastArgmax dets with
           | none => none
           | some best => if (⊥ : Fl) ∈ best then none else some best) := by
  have hAny : (sentinel :: dets).any List.isEmpty = false := by
    rw [List.any_eq_false]
    intro x hx
    rcases List.mem_cons.mp hx with hxs | hxd
    · subst hxs
      simp [sentinel]
    · simp [List.isEmpty_iff, hne x hxd]
  cases hd : lastArgmax dets with
  | none =>
    have hdets : dets = [] := lastArgmax_eq_none hd
    subst hdets
    rfl
  | some m =>
    rw [selectBest, if_neg (by rw [hAny]; simp)]
    have hsort : (List.insertionSort rowLE (sentinel :: dets)).getLast? = some m := by
      rw [getLast?_insertionSort, lastArgmax, hd]
      show some (if rowLE sentinel m then m else sentinel) = some m
      rw [if_pos (show rowLE sentinel m from bot_le)]
    rw [hsort]

lemma selectAll_ok (buckets : List (List (List Fl))) (ks : List ℕ)
    (f : ℕ → Option (List Fl))
    (h : ∀ k ∈ ks, selectBest (buckets.getD k []) = .ok (f k)) :
    selectAll buckets ks = .ok (ks.map fun k => (k, f k)) := by
  induction ks with
  | nil => rfl
  | cons k ks ih =>
    rw [selectAll, h k (List.mem_cons_self k ks),
      ih (fun j hj => h j (List.mem_cons_of_mem _ hj))]
    rfl

/-- The rows of a class are nonempty payloads when every raw row has at
least two entries. -/
lemma classRows_ne_nil {preds : List (List Fl)} {n k : ℕ}
    (h : ∀ row ∈ preds, 2 ≤ row.length) :
    ∀ d ∈ classRows preds n k, d ≠ [] := by
  intro d hd
  rw [classRows] at hd
  obtain ⟨row, hrow, hdr⟩ := List.mem_map.mp hd
  have hmem : row ∈ preds := List.mem_of_mem_filter hrow
  have hlen : 2 ≤ row.length := h row hmem
  have : 0 < d.length := by
    rw [← hdr, List.length_dropLast]
    omega
  exact List.ne_nil_of_length_pos this

/-- Master correctness lemma: on rows that are nonsingleton and carry a
valid class, the source computation equals the reference result. -/
lemma preds_from_torch_results_ok (preds : List (List Fl)) (n : ℕ)
    (h : ∀ row ∈ preds, 2 ≤ row.length ∧ ∃ k, classIndex (row.getLastD ⊥) n = some k) :
    preds_from_torch_results preds n = .ok (specReduce preds n) := by
  obtain ⟨b2, hb2, hl2, hspec⟩ := fillBuckets_ok n preds (List.replicate n [sentinel])
    (by simp)
    (fun row hr =>
      ⟨List.ne_nil_of_length_pos (by have := (h row hr).1; omega), (h row hr).2⟩)
  have hinit : ∀ k, k < n → (List.replicate n [sentinel]).getD k [] = [sentinel] := by
    intro k hk
    rw [List.getD_eq_getElem?_getD, List.getElem?_replicate, if_pos hk]
    rfl
  have hsel : ∀ k ∈ List.range n,
      selectBest (b2.getD k []) =
        .ok (match lastArgmax (classRows preds n k) with
             | none => none
             | some best => if (⊥ : Fl) ∈ best then none else some best) := by
    intro k hk
    have hkn : k < n := List.mem_range.mp hk
    rw [hspec k hkn, hinit k hkn]
    exact selectBest_bucket (classRows preds n k)
      (classRows_ne_nil (fun row hr => (h row hr).1))
  rw [preds_from_torch_results, hb2]
  show selectAll b2 (List.range n) = _
  rw [selectAll_ok b2 (List.range n) _ hsel]
  rfl

/-- The first loop raises KeyError whenever some row (all rows being
nonempty) has a class value that is not a dict key. -/
lemma fillBuckets_invalid (n : ℕ) (rows : List (List Fl))
    (buckets : List (List (List Fl)))
    (hne : ∀ row ∈ rows, row ≠ [])
    (hbad : ∃ row ∈ rows, classIndex (row.getLastD ⊥) n = none) :
    fillBuckets n rows buckets = .error .keyError := by
  induction rows generalizing buckets with
  | nil =>
    obtain ⟨row, hr, _⟩ := hbad
    simp at hr
  | cons row rest ih =>
    rw [fillBuckets,
      if_neg (by rw [List.isEmpty_eq_false.mpr (hne row (List.mem_cons_self row rest))]; simp)]
    cases hc : classIndex (row.getLastD ⊥) n with
    | none => rfl
    | some k =>
      obtain ⟨r, hr, hrb⟩ := hbad
      rcases List.mem_cons.mp hr with hrr | hrrest
      · rw [hrr, hc] at hrb
        cases hrb
      · exact ih _ (fun r2 hr2 => hne r2 (List.mem_cons_of_mem _ hr2)) ⟨r, hrrest, hrb⟩

/-- Payload rows of a bucket never contain the -inf sentinel value when
the raw rows are free of it. -/
lemma not_bot_mem_classRows {preds : List (List Fl)} {n k : ℕ}
    (hfin : ∀ row ∈ preds, ∀ v ∈ row, v ≠ (⊥ : Fl)) :
    ∀ d ∈ classRows preds n k, (⊥ : Fl) ∉ d := by
  intro d hd hbmem
  rw [classRows] at hd
  obtain ⟨row, hrow, hdr⟩ := List.mem_map.mp hd
  have hmem := List.mem_of_mem_filter hrow
  have hbrow : (⊥ : Fl) ∈ row := by
    rw [← hdr] at hbmem
    exact (List.dropLast_sublist row).subset hbmem
  exact hfin row hmem ⊥ hbrow rfl

/-- Reading entry k of the reference result. -/
lemma specReduce_getD {preds : List (List Fl)} {n k : ℕ} (hk : k < n) :
    (specReduce preds n).getD k (0, none) =
      (k, match lastArgmax (classRows preds n k) with
          | none => none
          | some best => if (⊥ : Fl) ∈ best then none else some best) := by
  rw [specReduce, List.getD_eq_getElem?_getD, List.getElem?_map,
    List.getElem?_range hk]
  rfl

/-- The claim hypothesis (all class ids are integers in [0, n)) in terms
of the dict lookup. -/
lemma valid_rows_of_claim {preds : List (List Fl)} {n : ℕ}
    (harity : ∀ row ∈ preds, row.length = 6)
    (hcls : ∀ row ∈ preds, ∃ j, j < n ∧ row.getLastD ⊥ = ((j : ℚ) : Fl)) :
    ∀ row ∈ preds, 2 ≤ row.length ∧
      ∃ j, classIndex (row.getLastD ⊥) n = some j := by
  intro row hr
  obtain ⟨j, hj, hrj⟩ := hcls row hr
  exact ⟨by rw [harity row hr]; omega, j, classIndex_eq_some_iff.mpr ⟨hj, hrj⟩⟩

/-! ## Claims C1, C2, C3 -/

/-- C1: on an input whose rows are well-formed detections (six fields,
none of them -inf) with class ids all in [0, n), the reducer succeeds and,
for each class k with at least one detection, returns at position k the
detection of class k with maximum confidence; on ties of the maximal
confidence, the one appearing last in the original input order for that
class (equivalently: the last element of a stable ascending sort by
confidence). -/
theorem C1_selects_max_conf_last_on_ties
    (preds : List (List Fl)) (n k : ℕ)
    (harity : ∀ row ∈ preds, row.length = 6)
    (hfin : ∀ row ∈ preds, ∀ v ∈ row, v ≠ (⊥ : Fl))
    (hcls : ∀ row ∈ preds, ∃ j, j < n ∧ row.getLastD ⊥ = ((j : ℚ) : Fl))
    (hk : k < n) (hne : classRows preds n k ≠ []) :
    ∃ out best,
      preds_from_torch_results preds n = .ok out ∧
      lastArgmax (classRows preds n k) = some best ∧
      out.getD k (0, none) = (k, some best) ∧
      best ∈ classRows preds n k ∧
      (∀ d ∈ classRows preds n k, rowKey d ≤ rowKey best) ∧
      ((classRows preds n k).filter
        (fun d => decide (rowKey d = rowKey best))).getLast? = some best := by
  have hmaster := preds_from_torch_results_ok preds n (valid_rows_of_claim harity hcls)
  obtain ⟨best, hbest⟩ : ∃ best, lastArgmax (classRows preds n k) = some best := by
    cases hb : lastArgmax (classRows preds n k) with
    | none => exact absurd (lastArgmax_eq_none hb) hne
    | some m => exact ⟨m, rfl⟩
  have hmem := lastArgmax_mem hbest
  have hnotbot : (⊥ : Fl) ∉ best := not_bot_mem_classRows hfin best hmem
  refine ⟨specReduce preds n, best, hmaster, hbest, ?_, hmem,
    lastArgmax_max hbest, lastArgmax_last hbest⟩
  rw [specReduce_getD hk, hbest]
  show (k, if (⊥ : Fl) ∈ best then none else some best) = (k, some best)
  rw [if_neg hnotbot]

/-- C2: on rows with class ids all in [0, n), the reducer succeeds and
returns exactly n pairs whose class components are 0, 1, ..., n-1 in
order; a class with no detection yields the absent value none; in
particular the empty input yields n pairs, all absent. -/
theorem C2_length_classes_and_absent
    (preds : List (List Fl)) (n : ℕ)
    (harity : ∀ row ∈ preds, row.length = 6)
    (hcls : ∀ row ∈ preds, ∃ j, j < n ∧ row.getLastD ⊥ = ((j : ℚ) : Fl)) :
    ∃ out,
      preds_from_torch_results preds n = .ok out ∧
      out.length = n ∧
      out.map Prod.fst = List.range n ∧
      (∀ k, k < n → classRows preds n k = [] → out.getD k (0, none) = (k, none)) ∧
      (preds = [] → out = (List.range n).map fun k => (k, none)) := by
  have hmaster := preds_from_torch_results_ok preds n (valid_rows_of_claim harity hcls)
  refine ⟨specReduce preds n, hmaster, ?_, ?_, ?_, ?_⟩
  · rw [specReduce, List.length_map, List.length_range]
  · rw [specReduce, List.map_map]
    have hcomp : (Prod.fst ∘ fun k => ((k : ℕ),
        match lastArgmax (classRows preds n k) with
        | none => (none : Option (List Fl))
        | some best => if (⊥ : Fl) ∈ best then none else some best)) =
        fun k => k := rfl
    rw [hcomp, List.map_id']
  · intro k hk hcr
    rw [specReduce_getD hk, hcr]
    rfl
  · intro hp
    subst hp
    rw [specReduce]
    refine List.map_congr_left ?_
    intro k _
    have : classRows [] n k = [] := rfl
    rw [this]
    rfl

/-- C3: a detection whose class id is an integer outside [0, n) (with all
rows being well-formed six-field detections) makes the reducer fail with
the dict-lookup KeyError — the realization of the spec error
InvalidClassId — rather than silently dropping or wrapping the
detection. -/
theorem C3_invalid_class_id_fails
    (preds : List (List Fl)) (n : ℕ)
    (harity : ∀ row ∈ preds, row.length = 6)
    (hbad : ∃ row ∈ preds, ∃ z : ℤ,
      row.getLastD ⊥ = ((z : ℚ) : Fl) ∧ (z < 0 ∨ (n : ℤ) ≤ z)) :
    preds_from_torch_results preds n = .error .keyError := by
  obtain ⟨row, hr, z, hz, hzout⟩ := hbad
  have hci : classIndex (row.getLastD ⊥) n = none := by
    rw [classIndex_eq_none_iff]
    intro k hk heq
    rw [hz] at heq
    have : z = (k : ℤ) := by
      have hq : ((z : ℚ)) = ((k : ℚ)) := WithBot.coe_inj.mp heq
      have : ((z : ℚ)) = (((k : ℤ) : ℚ)) := by push_cast; push_cast at hq; exact hq
      exact Int.cast_inj.mp this
    omega
  have hfb := fillBuckets_invalid n preds (List.replicate n [sentinel])
    (fun r hr2 => List.ne_nil_of_length_pos (by rw [harity r hr2]; omega))
    ⟨row, hr, hci⟩
  rw [preds_from_torch_results, hfb]
  rfl

/-- Concrete input for the C1 witness: two detections of class 0 with
confidences 90 and 95, in that order. -/
def c1preds : List (List Fl) :=
  [[((5 : ℚ) : Fl), ((5 : ℚ) : Fl), ((5 : ℚ) : Fl), ((5 : ℚ) : Fl),
    ((90 : ℚ) : Fl), ((0 : ℚ) : Fl)],
   [((5 : ℚ) : Fl), ((5 : ℚ) : Fl), ((5 : ℚ) : Fl), ((5 : ℚ) : Fl),
    ((95 : ℚ) : Fl), ((0 : ℚ) : Fl)]]

/-- Witness for C1 at the concrete input c1preds with one class. -/
theorem C1_witness :
    (∀ row ∈ c1preds, row.length = 6) ∧
    (∀ row ∈ c1preds, ∀ v ∈ row, v ≠ (⊥ : Fl)) ∧
    (∀ row ∈ c1preds, ∃ j : ℕ, j < 1 ∧ row.getLastD ⊥ = ((j : ℚ) : Fl)) ∧
    (0 : ℕ) < 1 ∧
    classRows c1preds 1 0 ≠ [] ∧
    (∃ out best,
      preds_from_torch_results c1preds 1 = .ok out ∧
      lastArgmax (classRows c1preds 1 0) = some best ∧
      out.getD 0 (0, none) = (0, some best) ∧
      best ∈ classRows c1preds 1 0 ∧
      (∀ d ∈ classRows c1preds 1 0, rowKey d ≤ rowKey best) ∧
      ((classRows c1preds 1 0).filter
        (fun d => decide (rowKey d = rowKey best))).getLast? = some best) := by
  have hcls : ∀ row ∈ c1preds, ∃ j : ℕ, j < 1 ∧ row.getLastD ⊥ = ((j : ℚ) : Fl) := by
    intro row hr
    cases hr with
    | head => exact ⟨0, by decide⟩
    | tail _ hr2 =>
      cases hr2 with
      | head => exact ⟨0, by decide⟩
      | tail _ hr3 => cases hr3
  exact ⟨by decide, by decide, hcls, by decide, by decide,
    C1_selects_max_conf_last_on_ties c1preds 1 0 (by decide) (by decide) hcls
      (by decide) (by decide)⟩

/-- Witness for C2 at the empty detection list with two classes. -/
theorem C2_witness :
    (∀ row ∈ ([] : List (List Fl)), row.length = 6) ∧
    (∀ row ∈ ([] : List (List Fl)), ∃ j : ℕ, j < 2 ∧ row.getLastD ⊥ = ((j : ℚ) : Fl)) ∧
    (∃ out,
      preds_from_torch_results [] 2 = .ok out ∧
      out.length = 2 ∧
      out.map Prod.fst = List.range 2 ∧
      (∀ k, k < 2 → classRows [] 2 k = [] → out.getD k (0, none) = (k, none)) ∧
      (([] : List (List Fl)) = [] → out = (List.range 2).map fun k => (k, none))) :=
  ⟨fun row hr => absurd hr (List.not_mem_nil row),
   fun row hr => absurd hr (List.not_mem_nil row),
   C2_length_classes_and_absent [] 2
     (fun row hr => absurd hr (List.not_mem_nil row))
     (fun row hr => absurd hr (List.not_mem_nil row))⟩

/-- Concrete input for the C3 witness: one detection with class id 5 when
only classes 0, 1, 2 exist. -/
def c3preds : List (List Fl) :=
  [[((1 : ℚ) : Fl), ((1 : ℚ) : Fl), ((1 : ℚ) : Fl), ((1 : ℚ) : Fl),
    ((1 : ℚ) : Fl), ((5 : ℚ) : Fl)]]

/-- Witness for C3 at the concrete input c3preds with three classes. -/
theorem C3_witness :
    (∀ row ∈ c3preds, row.length = 6) ∧
    (∃ row ∈ c3preds, ∃ z : ℤ,
      row.getLastD ⊥ = ((z : ℚ) : Fl) ∧ (z < 0 ∨ ((3 : ℕ) : ℤ) ≤ z)) ∧
    preds_from_torch_results c3preds 3 = .error .keyError :=
  ⟨by decide,
   ⟨_, List.mem_cons_self _ _, 5, by decide, Or.inr (by decide)⟩,
   C3_invalid_class_id_fails c3preds 3 (by decide)
     ⟨_, List.mem_cons_self _ _, 5, by decide, Or.inr (by decide)⟩⟩

/-! ## Claim C4 -/

/-- C4 counterexample: a detection tuple of wrong arity (four fields
instead of six) whose last field is a valid class id is NOT rejected: the
reducer succeeds and returns its first three fields as the prediction for
class 0, refuting the claim that wrong arity always fails with a
MalformedDetection error. -/
theorem C4_counterexample_wrong_arity_accepted :
    preds_from_torch_results
      [[((1 : ℚ) : Fl), ((2 : ℚ) : Fl), ((3 : ℚ) : Fl), ((0 : ℚ) : Fl)]] 1 =
      .ok [(0, some [((1 : ℚ) : Fl), ((2 : ℚ) : Fl), ((3 : ℚ) : Fl)])] := rfl

/-- C4 amended: there is no arity check at all. Any nonempty field list
xs (of whatever length, -inf-free) followed by a valid class id is
accepted: the reducer succeeds and returns xs itself as the prediction for
that class, with the second-to-last field of the row silently treated as
the confidence. (Only an empty row fails the starred unpacking with
ValueError, and a one-field row fails with IndexError in the sort key;
no MalformedDetection error exists.) -/
theorem C4_amended_no_arity_check (xs : List Fl) (hne : xs ≠ [])
    (hnb : (⊥ : Fl) ∉ xs) :
    preds_from_torch_results [xs ++ [((0 : ℚ) : Fl)]] 1 =
      .ok [(0, some xs)] := by
  have hc0 : classIndex ((xs ++ [((0 : ℚ) : Fl)]).getLastD ⊥) 1 = some 0 := by
    rw [List.getLastD_concat]
    exact classIndex_eq_some_iff.mpr ⟨Nat.zero_lt_one, by norm_num⟩
  have hrne : xs ++ [((0 : ℚ) : Fl)] ≠ [] := by simp
  rw [preds_from_torch_results]
  have h1 : fillBuckets 1 [xs ++ [((0 : ℚ) : Fl)]] (List.replicate 1 [sentinel]) =
      .ok [[sentinel, xs]] := by
    rw [fillBuckets, if_neg (by rw [List.isEmpty_eq_false.mpr hrne]; simp), hc0]
    rw [List.dropLast_concat]
    rfl
  rw [h1]
  show selectAll [[sentinel, xs]] (List.range 1) = .ok [(0, some xs)]
  have h2 : selectBest [sentinel, xs] = .ok (some xs) := by
    have hsb := selectBest_bucket [xs]
      (fun d hd => by rw [List.mem_singleton] at hd; rw [hd]; exact hne)
    rw [show (sentinel :: [xs]) = [sentinel, xs] from rfl] at hsb
    rw [hsb]
    show Except.ok (if (⊥ : Fl) ∈ xs then none else some xs) = _
    rw [if_neg hnb]
  have hgd : [[sentinel, xs]].getD 0 [] = [sentinel, xs] := rfl
  rw [show List.range 1 = [0] from rfl, selectAll, hgd, h2, selectAll]
  rfl

/-- Witness for the amended C4: a three-field payload (a row of arity
four, instead of six) goes through. -/
theorem C4_amended_witness :
    ([((1 : ℚ) : Fl), ((2 : ℚ) : Fl), ((3 : ℚ) : Fl)] ≠ []) ∧
    ((⊥ : Fl) ∉ [((1 : ℚ) : Fl), ((2 : ℚ) : Fl), ((3 : ℚ) : Fl)]) ∧
    preds_from_torch_results
      [[((1 : ℚ) : Fl), ((2 : ℚ) : Fl), ((3 : ℚ) : Fl)] ++ [((0 : ℚ) : Fl)]] 1 =
      .ok [(0, some [((1 : ℚ) : Fl), ((2 : ℚ) : Fl), ((3 : ℚ) : Fl)])] :=
  ⟨by decide, by decide,
   C4_amended_no_arity_check [((1 : ℚ) : Fl), ((2 : ℚ) : Fl), ((3 : ℚ) : Fl)]
     (by decide) (by decide)⟩

/-! ## Evaluation lemmas for the geometry on concrete field kinds -/

lemma exceptOk_bind {α β : Type} (x : α) (f : α → Except PyErr β) :
    (Except.ok x : Except PyErr α) >>= f = f x := rfl

lemma pyLt_rat (a b : ℚ) : pyLt (.pyRat a) (.pyRat b) = .ok (decide (a < b)) := rfl

lemma pyMax_rat (a b : ℚ) : pyMax (.pyRat a) (.pyRat b) = .ok (.pyRat (max a b)) := by
  by_cases hab : a < b
  · have h1 : pyMax (.pyRat a) (.pyRat b) = .ok (.pyRat b) := by
      unfold pyMax
      rw [pyLt_rat, exceptOk_bind, decide_eq_true hab]
      rfl
    rw [h1, max_eq_right (le_of_lt hab)]
  · have h1 : pyMax (.pyRat a) (.pyRat b) = .ok (.pyRat a) := by
      unfold pyMax
      rw [pyLt_rat, exceptOk_bind, decide_eq_false hab]
      rfl
    rw [h1, max_eq_left (le_of_not_lt hab)]

lemma pyMin_rat (a b : ℚ) : pyMin (.pyRat a) (.pyRat b) = .ok (.pyRat (min a b)) := by
  by_cases hba : b < a
  · have h1 : pyMin (.pyRat a) (.pyRat b) = .ok (.pyRat b) := by
      unfold pyMin
      rw [pyLt_rat, exceptOk_bind, decide_eq_true hba]
      rfl
    rw [h1, min_eq_right (le_of_lt hba)]
  · have h1 : pyMin (.pyRat a) (.pyRat b) = .ok (.pyRat a) := by
      unfold pyMin
      rw [pyLt_rat, exceptOk_bind, decide_eq_false hba]
      rfl
    rw [h1, min_eq_left (le_of_not_lt hba)]

lemma rectangular_area_rat (a b c d : ℚ) :
    rectangular_area (.pyRat a) (.pyRat b) (.pyRat c) (.pyRat d) =
      .ok (.pyRat ((b - a) * (d - c))) := rfl

lemma is_overlapping_present (cA x y w h e cB x2 y2 w2 h2 e2 : ℚ) :
    BBox.is_overlapping (presentBox cA x y w h e) (presentBox cB x2 y2 w2 h2 e2) =
      .ok (decide ((x - w / 2 < x2 + w2 / 2) ∧ (y - h / 2 < y2 + h2 / 2) ∧
                   (x2 - w2 / 2 < x + w / 2) ∧ (y2 - h2 / 2 < y + h / 2))) := by
  show (if decide (x - w / 2 < x2 + w2 / 2) = true then
          if decide (y - h / 2 < y2 + h2 / 2) = true then
            if decide (x2 - w2 / 2 < x + w / 2) = true then
              Except.ok (decide (y2 - h2 / 2 < y + h / 2))
            else Except.ok false
          else Except.ok false
        else Except.ok false) = _
  by_cases h1 : x - w / 2 < x2 + w2 / 2 <;>
    by_cases h2' : y - h / 2 < y2 + h2 / 2 <;>
      by_cases h3 : x2 - w2 / 2 < x + w / 2 <;>
        by_cases h4 : y2 - h2 / 2 < y + h / 2 <;>
          simp [h1, h2', h3, h4]

lemma intersection_present (cA x y w h e cB x2 y2 w2 h2 e2 : ℚ) :
    BBox.intersection (presentBox cA x y w h e) (presentBox cB x2 y2 w2 h2 e2) =
      .ok (.pyRat ((min (x + w / 2) (x2 + w2 / 2) - max (x - w / 2) (x2 - w2 / 2)) *
                   (min (y + h / 2) (y2 + h2 / 2) - max (y - h / 2) (y2 - h2 / 2)))) := by
  unfold BBox.intersection
  rw [show (presentBox cA x y w h e).x1 = .pyRat (x - w / 2) from rfl,
    show (presentBox cA x y w h e).x2 = .pyRat (x + w / 2) from rfl,
    show (presentBox cA x y w h e).y1 = .pyRat (y - h / 2) from rfl,
    show (presentBox cA x y w h e).y2 = .pyRat (y + h / 2) from rfl,
    show (presentBox cB x2 y2 w2 h2 e2).x1 = .pyRat (x2 - w2 / 2) from rfl,
    show (presentBox cB x2 y2 w2 h2 e2).x2 = .pyRat (x2 + w2 / 2) from rfl,
    show (presentBox cB x2 y2 w2 h2 e2).y1 = .pyRat (y2 - h2 / 2) from rfl,
    show (presentBox cB x2 y2 w2 h2 e2).y2 = .pyRat (y2 + h2 / 2) from rfl,
    pyMax_rat, pyMax_rat, pyMin_rat, pyMin_rat]
  rw [exceptOk_bind, exceptOk_bind, exceptOk_bind, exceptOk_bind, rectangular_area_rat]

lemma niou_present (cA x y w h e cB x2 y2 w2 h2 e2 : ℚ) :
    BBox.niou (presentBox cA x y w h e) (presentBox cB x2 y2 w2 h2 e2) =
      (if (x - w / 2 < x2 + w2 / 2) ∧ (y - h / 2 < y2 + h2 / 2) ∧
          (x2 - w2 / 2 < x + w / 2) ∧ (y2 - h2 / 2 < y + h / 2) then
        (if min (((x + w / 2) - (x - w / 2)) * ((y + h / 2) - (y - h / 2)))
               (((x2 + w2 / 2) - (x2 - w2 / 2)) * ((y2 + h2 / 2) - (y2 - h2 / 2))) = 0 then
          Except.error PyErr.zeroDivisionError
        else
          Except.ok (PyVal.pyRat
            (((min (x + w / 2) (x2 + w2 / 2) - max (x - w / 2) (x2 - w2 / 2)) *
              (min (y + h / 2) (y2 + h2 / 2) - max (y - h / 2) (y2 - h2 / 2))) /
             (min (((x + w / 2) - (x - w / 2)) * ((y + h / 2) - (y - h / 2)))
                  (((x2 + w2 / 2) - (x2 - w2 / 2)) * ((y2 + h2 / 2) - (y2 - h2 / 2)))))))
      else Except.ok (.pyRat 0)) := by
  unfold BBox.niou
  rw [is_overlapping_present, exceptOk_bind]
  by_cases hov : (x - w / 2 < x2 + w2 / 2) ∧ (y - h / 2 < y2 + h2 / 2) ∧
      (x2 - w2 / 2 < x + w / 2) ∧ (y2 - h2 / 2 < y + h / 2)
  · rw [decide_eq_true hov, if_pos hov]
    show (do
      let ia ← BBox.intersection (presentBox cA x y w h e) (presentBox cB x2 y2 w2 h2 e2)
      let a1 ← rectangular_area (presentBox cA x y w h e).x1 (presentBox cA x y w h e).x2
        (presentBox cA x y w h e).y1 (presentBox cA x y w h e).y2
      let a2 ← rectangular_area (presentBox cB x2 y2 w2 h2 e2).x1 (presentBox cB x2 y2 w2 h2 e2).x2
        (presentBox cB x2 y2 w2 h2 e2).y1 (presentBox cB x2 y2 w2 h2 e2).y2
      let m ← pyMin a1 a2
      pyDiv ia m) = _
    rw [intersection_present, exceptOk_bind,
      show (presentBox cA x y w h e).x1 = .pyRat (x - w / 2) from rfl,
      show (presentBox cA x y w h e).x2 = .pyRat (x + w / 2) from rfl,
      show (presentBox cA x y w h e).y1 = .pyRat (y - h / 2) from rfl,
      show (presentBox cA x y w h e).y2 = .pyRat (y + h / 2) from rfl,
      show (presentBox cB x2 y2 w2 h2 e2).x1 = .pyRat (x2 - w2 / 2) from rfl,
      show (presentBox cB x2 y2 w2 h2 e2).x2 = .pyRat (x2 + w2 / 2) from rfl,
      show (presentBox cB x2 y2 w2 h2 e2).y1 = .pyRat (y2 - h2 / 2) from rfl,
      show (presentBox cB x2 y2 w2 h2 e2).y2 = .pyRat (y2 + h2 / 2) from rfl,
      rectangular_area_rat, rectangular_area_rat, exceptOk_bind, exceptOk_bind,
      pyMin_rat, exceptOk_bind]
    rfl
  · rw [decide_eq_false hov, if_neg hov]
    rfl

/-! ## Claims C5 - C10 -/

/-- C5: is_overlapping returns false - not an error - whenever either box
is absent (whatever the other one is), and for two present boxes returns
exactly the conjunction of the four strict corner inequalities
x1 < other.x2, y1 < other.y2, other.x1 < x2, other.y1 < y2, so that boxes
touching only along an edge or corner do not overlap. -/
theorem C5_is_overlapping_spec (cA x y w h e cB x2 y2 w2 h2 e2 : ℚ) :
    (∀ B : BBox, BBox.is_overlapping (absentBox cA none) B = .ok false) ∧
    (∀ B : BBox, BBox.is_overlapping B (absentBox cA none) = .ok false) ∧
    BBox.is_overlapping (presentBox cA x y w h e) (presentBox cB x2 y2 w2 h2 e2) =
      .ok (decide ((x - w / 2 < x2 + w2 / 2) ∧ (y - h / 2 < y2 + h2 / 2) ∧
                   (x2 - w2 / 2 < x + w / 2) ∧ (y2 - h2 / 2 < y + h / 2))) := by
  refine ⟨?_, ?_, is_overlapping_present cA x y w h e cB x2 y2 w2 h2 e2⟩
  · intro B
    rfl
  · intro B
    unfold BBox.is_overlapping
    cases hb : B.truthy <;> rfl

/-- C6 counterexample: the boxes centred at (1, 1) and (9, 9) with width
and height 2 are disjoint in both axes, so they do not overlap, yet the
unguarded intersection computes (2 - 8) * (2 - 8) = 36, a positive value -
refuting the claim that a non-overlapping pair always yields zero or a
negative value. -/
theorem C6_counterexample_positive_area :
    BBox.is_overlapping (presentBox 0 1 1 2 2 1) (presentBox 0 9 9 2 2 1) =
      .ok false ∧
    BBox.intersection (presentBox 0 1 1 2 2 1) (presentBox 0 9 9 2 2 1) =
      .ok (.pyRat 36) ∧
    (0 : ℚ) < 36 := by
  refine ⟨?_, ?_, by norm_num⟩
  · rw [is_overlapping_present]
    norm_num
  · rw [intersection_present]
    norm_num [min_def, max_def]

/-- C6 amended: for present non-overlapping boxes the unguarded
intersection yields zero or a negative value whenever the boxes are
separated in at most one axis; when they are separated in both axes (both
intersection extents negative) the product is positive instead. -/
theorem C6_amended_nonoverlap_area_sign (cA x y w h e cB x2 y2 w2 h2 e2 : ℚ)
    (hno : BBox.is_overlapping (presentBox cA x y w h e)
      (presentBox cB x2 y2 w2 h2 e2) = .ok false) :
    ∃ q : ℚ,
      BBox.intersection (presentBox cA x y w h e) (presentBox cB x2 y2 w2 h2 e2) =
        .ok (.pyRat q) ∧
      (q ≤ 0 ∨
        (min (x + w / 2) (x2 + w2 / 2) < max (x - w / 2) (x2 - w2 / 2) ∧
         min (y + h / 2) (y2 + h2 / 2) < max (y - h / 2) (y2 - h2 / 2))) := by
  rw [is_overlapping_present] at hno
  have hP : ¬((x - w / 2 < x2 + w2 / 2) ∧ (y - h / 2 < y2 + h2 / 2) ∧
      (x2 - w2 / 2 < x + w / 2) ∧ (y2 - h2 / 2 < y + h / 2)) := by
    intro hp
    rw [decide_eq_true hp] at hno
    exact absurd hno (by simp)
  refine ⟨_, intersection_present cA x y w h e cB x2 y2 w2 h2 e2, ?_⟩
  have hX2a : min (x + w / 2) (x2 + w2 / 2) ≤ x + w / 2 := min_le_left _ _
  have hX2b : min (x + w / 2) (x2 + w2 / 2) ≤ x2 + w2 / 2 := min_le_right _ _
  have hX1a : x - w / 2 ≤ max (x - w / 2) (x2 - w2 / 2) := le_max_left _ _
  have hX1b : x2 - w2 / 2 ≤ max (x - w / 2) (x2 - w2 / 2) := le_max_right _ _
  have hY2a : min (y + h / 2) (y2 + h2 / 2) ≤ y + h / 2 := min_le_left _ _
  have hY2b : min (y + h / 2) (y2 + h2 / 2) ≤ y2 + h2 / 2 := min_le_right _ _
  have hY1a : y - h / 2 ≤ max (y - h / 2) (y2 - h2 / 2) := le_max_left _ _
  have hY1b : y2 - h2 / 2 ≤ max (y - h / 2) (y2 - h2 / 2) := le_max_right _ _
  have hkey : min (x + w / 2) (x2 + w2 / 2) - max (x - w / 2) (x2 - w2 / 2) ≤ 0 ∨
      min (y + h / 2) (y2 + h2 / 2) - max (y - h / 2) (y2 - h2 / 2) ≤ 0 := by
    by_cases h1 : x - w / 2 < x2 + w2 / 2
    · by_cases h2' : y - h / 2 < y2 + h2 / 2
      · by_cases h3 : x2 - w2 / 2 < x + w / 2
        · by_cases h4 : y2 - h2 / 2 < y + h / 2
          · exact absurd ⟨h1, h2', h3, h4⟩ hP
          · right
            push_neg at h4
            linarith
        · left
          push_neg at h3
          linarith
      · right
        push_neg at h2'
        linarith
    · left
      push_neg at h1
      linarith
  rcases hkey with hdx | hdy
  · by_cases hy : 0 ≤ min (y + h / 2) (y2 + h2 / 2) - max (y - h / 2) (y2 - h2 / 2)
    · left
      nlinarith [mul_nonneg (neg_nonneg.mpr hdx) hy]
    · push_neg at hy
      by_cases hx : min (x + w / 2) (x2 + w2 / 2) - max (x - w / 2) (x2 - w2 / 2) < 0
      · right
        exact ⟨by linarith, by linarith⟩
      · left
        have hx0 : min (x + w / 2) (x2 + w2 / 2) - max (x - w / 2) (x2 - w2 / 2) = 0 :=
          le_antisymm hdx (not_lt.mp hx)
        rw [hx0, zero_mul]
  · by_cases hx : 0 ≤ min (x + w / 2) (x2 + w2 / 2) - max (x - w / 2) (x2 - w2 / 2)
    · left
      nlinarith [mul_nonneg hx (neg_nonneg.mpr hdy)]
    · push_neg at hx
      by_cases hy : min (y + h / 2) (y2 + h2 / 2) - max (y - h / 2) (y2 - h2 / 2) < 0
      · right
        exact ⟨by linarith, by linarith⟩
      · left
        have hy0 : min (y + h / 2) (y2 + h2 / 2) - max (y - h / 2) (y2 - h2 / 2) = 0 :=
          le_antisymm hdy (not_lt.mp hy)
        rw [hy0, mul_zero]

/-- Witness for the amended C6: boxes separated in the x axis only; the
computed intersection value is -6 * 2 = -12 which is nonpositive. -/
theorem C6_witness :
    (BBox.is_overlapping (presentBox 0 1 1 2 2 1) (presentBox 0 9 1 2 2 1) =
      .ok false) ∧
    (∃ q : ℚ,
      BBox.intersection (presentBox 0 1 1 2 2 1) (presentBox 0 9 1 2 2 1) =
        .ok (.pyRat q) ∧
      (q ≤ 0 ∨
        (min ((1 : ℚ) + 2 / 2) (9 + 2 / 2) < max (1 - 2 / 2) (9 - 2 / 2) ∧
         min ((1 : ℚ) + 2 / 2) (1 + 2 / 2) < max (1 - 2 / 2) (1 - 2 / 2)))) := by
  have hno : BBox.is_overlapping (presentBox 0 1 1 2 2 1) (presentBox 0 9 1 2 2 1) =
      .ok false := by
    rw [is_overlapping_present]
    norm_num
  exact ⟨hno, C6_amended_nonoverlap_area_sign 0 1 1 2 2 1 0 9 1 2 2 1 hno⟩

/-- C7: the normalized IoU of two present boxes is symmetric in its two
arguments - including the failure behaviour when the smaller area is zero
(both orders raise ZeroDivisionError in that case). -/
theorem C7_niou_symmetric (cA x y w h e cB x2 y2 w2 h2 e2 : ℚ) :
    BBox.niou (presentBox cA x y w h e) (presentBox cB x2 y2 w2 h2 e2) =
      BBox.niou (presentBox cB x2 y2 w2 h2 e2) (presentBox cA x y w h e) := by
  rw [niou_present, niou_present]
  have hiff : ((x - w / 2 < x2 + w2 / 2) ∧ (y - h / 2 < y2 + h2 / 2) ∧
      (x2 - w2 / 2 < x + w / 2) ∧ (y2 - h2 / 2 < y + h / 2)) ↔
      ((x2 - w2 / 2 < x + w / 2) ∧ (y2 - h2 / 2 < y + h / 2) ∧
       (x - w / 2 < x2 + w2 / 2) ∧ (y - h / 2 < y2 + h2 / 2)) :=
    ⟨fun hc => ⟨hc.2.2.1, hc.2.2.2, hc.1, hc.2.1⟩,
     fun hc => ⟨hc.2.2.1, hc.2.2.2, hc.1, hc.2.1⟩⟩
  have hm1 : min (x + w / 2) (x2 + w2 / 2) = min (x2 + w2 / 2) (x + w / 2) :=
    min_comm _ _
  have hm2 : max (x - w / 2) (x2 - w2 / 2) = max (x2 - w2 / 2) (x - w / 2) :=
    max_comm _ _
  have hm3 : min (y + h / 2) (y2 + h2 / 2) = min (y2 + h2 / 2) (y + h / 2) :=
    min_comm _ _
  have hm4 : max (y - h / 2) (y2 - h2 / 2) = max (y2 - h2 / 2) (y - h / 2) :=
    max_comm _ _
  have hm5 : min (((x + w / 2) - (x - w / 2)) * ((y + h / 2) - (y - h / 2)))
      (((x2 + w2 / 2) - (x2 - w2 / 2)) * ((y2 + h2 / 2) - (y2 - h2 / 2))) =
      min (((x2 + w2 / 2) - (x2 - w2 / 2)) * ((y2 + h2 / 2) - (y2 - h2 / 2)))
        (((x + w / 2) - (x - w / 2)) * ((y + h / 2) - (y - h / 2))) := min_comm _ _
  rw [hm1, hm2, hm3, hm4, hm5]
  exact if_congr hiff rfl rfl

/-- C8: a box built from a present prediction with nonnegative width and
height has ordered corners: x1 = x - w/2 eq x2 = x + w/2 and likewise in
y. -/
theorem C8_corners_ordered (cls x y w h e : ℚ) (hw : 0 ≤ w) (hh : 0 ≤ h) :
    BBox.init (cls, some [x, y, w, h, e]) = .ok (presentBox cls x y w h e) ∧
    (presentBox cls x y w h e).x1 = .pyRat (x - w / 2) ∧
    (presentBox cls x y w h e).x2 = .pyRat (x + w / 2) ∧
    (presentBox cls x y w h e).y1 = .pyRat (y - h / 2) ∧
    (presentBox cls x y w h e).y2 = .pyRat (y + h / 2) ∧
    x - w / 2 ≤ x + w / 2 ∧ y - h / 2 ≤ y + h / 2 :=
  ⟨rfl, rfl, rfl, rfl, rfl, by linarith, by linarith⟩

/-- Witness for C8 at the unit box centred at the origin. -/
theorem C8_witness :
    (0 : ℚ) ≤ 2 ∧ (0 : ℚ) ≤ 2 ∧
    (BBox.init ((0 : ℚ), some [0, 0, 2, 2, 1]) = .ok (presentBox 0 0 0 2 2 1) ∧
     (presentBox (0 : ℚ) 0 0 2 2 1).x1 = .pyRat (0 - 2 / 2) ∧
     (presentBox (0 : ℚ) 0 0 2 2 1).x2 = .pyRat (0 + 2 / 2) ∧
     (presentBox (0 : ℚ) 0 0 2 2 1).y1 = .pyRat (0 - 2 / 2) ∧
     (presentBox (0 : ℚ) 0 0 2 2 1).y2 = .pyRat (0 + 2 / 2) ∧
     (0 : ℚ) - 2 / 2 ≤ 0 + 2 / 2 ∧ (0 : ℚ) - 2 / 2 ≤ 0 + 2 / 2) :=
  ⟨by norm_num, by norm_num,
   C8_corners_ordered 0 0 0 2 2 1 (by norm_num) (by norm_num)⟩

/-- C9 counterexample: in a box built from the absent prediction, the
corner field x1 is the one-element tuple (None,) - an artifact of the
trailing comma in create_corners - while conf is None, so the derived
fields are NOT all the same no-value marker. -/
theorem C9_counterexample_markers_differ :
    BBox.init (0, none) = .ok (absentBox 0 none) ∧
    (absentBox (0 : ℚ) none).conf = .pyNone ∧
    (absentBox (0 : ℚ) none).x1 = .pyTup1 .pyNone ∧
    (absentBox (0 : ℚ) none).x1 ≠ (absentBox (0 : ℚ) none).conf :=
  ⟨rfl, rfl, rfl, fun hc => PyVal.noConfusion hc⟩

/-- C9 amended: for a box built from an absent prediction no arithmetic
is attempted and every derived field is a no-value placeholder, but they
are not all the same marker: x, y, w, h and conf are None while each of
the four corners x1, x2, y1, y2 is the one-element tuple (None,), a
different value produced by the trailing commas in create_corners. -/
theorem C9_amended_absent_fields (cls : ℚ) :
    BBox.init (cls, none) = .ok (absentBox cls none) ∧
    (absentBox cls none).x = .pyNone ∧
    (absentBox cls none).y = .pyNone ∧
    (absentBox cls none).w = .pyNone ∧
    (absentBox cls none).h = .pyNone ∧
    (absentBox cls none).conf = .pyNone ∧
    (absentBox cls none).x1 = .pyTup1 .pyNone ∧
    (absentBox cls none).x2 = .pyTup1 .pyNone ∧
    (absentBox cls none).y1 = .pyTup1 .pyNone ∧
    (absentBox cls none).y2 = .pyTup1 .pyNone ∧
    (PyVal.pyTup1 .pyNone) ≠ .pyNone :=
  ⟨rfl, rfl, rfl, rfl, rfl, rfl, rfl, rfl, rfl, rfl,
   fun hc => PyVal.noConfusion hc⟩

/-- C10 counterexample: for two absent boxes, the max and min of the
corner placeholders succeed (Python's tuple comparison finds the
one-element tuples equal, so (None,) is returned - they CAN be compared by
max and min), and the failure of intersection comes only later, from the
subtraction in rectangular_area. -/
theorem C10_counterexample_absent_comparable :
    pyMax (absentBox (0 : ℚ) none).x1 (absentBox (1 : ℚ) none).x1 =
      .ok (.pyTup1 .pyNone) ∧
    pyMin (absentBox (0 : ℚ) none).x2 (absentBox (1 : ℚ) none).x2 =
      .ok (.pyTup1 .pyNone) ∧
    pySub (PyVal.pyTup1 .pyNone) (PyVal.pyTup1 .pyNone) = .error .typeError ∧
    BBox.intersection (absentBox 0 none) (absentBox 1 none) = .error .typeError :=
  ⟨rfl, rfl, rfl, rfl⟩

/-- C10 amended: intersection is total only on present boxes. When either
box is absent it raises TypeError instead of returning a neutral value:
with exactly one absent box the max/min comparison of a (None,) corner
with a number raises, and with two absent boxes the comparisons succeed
(the placeholder tuples compare equal) and the subtraction in
rectangular_area raises. Among the geometric queries only is_overlapping
and niou guard absent boxes, returning false and 0. -/
theorem C10_amended_intersection_absent_fails (cA cB x y w h e : ℚ) :
    BBox.intersection (absentBox cA none) (absentBox cB none) =
      .error .typeError ∧
    BBox.intersection (absentBox cA none) (presentBox cB x y w h e) =
      .error .typeError ∧
    BBox.intersection (presentBox cB x y w h e) (absentBox cA none) =
      .error .typeError ∧
    pyLt (absentBox cA none).x1 (presentBox cB x y w h e).x1 =
      .error .typeError ∧
    BBox.is_overlapping (absentBox cA none) (presentBox cB x y w h e) =
      .ok false ∧
    BBox.is_overlapping (presentBox cB x y w h e) (absentBox cA none) =
      .ok false ∧
    BBox.niou (absentBox cA none) (presentBox cB x y w h e) = .ok (.pyRat 0) ∧
    BBox.niou (presentBox cB x y w h e) (absentBox cA none) = .ok (.pyRat 0) :=
  ⟨rfl, rfl, rfl, rfl, rfl, rfl, rfl, rfl⟩
